import Mathlib

/-!
Verification of the shift/workplace service and its reporting script.

The development shallowly embeds two source files:

* `src/scripts/top-workplaces.ts` — the reporting script: a flat paginated
  traversal (`fetchAllShifts`), a sharded paginated traversal
  (`fetchAllWorkplaces`), and the aggregation (`getTopWorkplaces`).
* `ShiftsService` — the claim/cancel lifecycle over persisted shift records.

Remote page fetches are modelled as an oracle returning `Option (PageResp α)`:
`none` models a request that throws inside the script's try/catch (network
error, non-success status, or a response whose handling throws, such as a
missing `links` field on a non-empty page), which the script turns into
`process.exit(1)`.  A delivered response whose `data` field is not an array
does NOT throw: the script coerces it to an empty page
(`Array.isArray(response.data.data) ? response.data.data : []`); the raw
layer `RawPage`/`coercePage`/`fetchAllShiftsRaw`/`fetchAllWorkplacesRaw`
models that coercion.  Traversal results live in `Option (Except Unit _)`:
`Except.error ()` is the fatal exit, `Except.ok` a normal return, and the
outermost `none` means the fuel bound was too small (the real loops are
unbounded `while` loops; theorems quantify over sufficient fuel).  Each
traversal additionally returns a ghost log of the requests it issued, in
order, so that claims about which pages and shards are probed are statable.
-/

/-- One page of a listing response: the `data` array and the truthiness of
`response.data.links.next` (`hasNext`). -/
structure PageResp (α : Type) where
  data : List α
  hasNext : Bool

/-- Page-fetch capability of a flat source: page index to response. -/
abbrev FlatFetch (α : Type) : Type := Nat → Option (PageResp α)

/-- Page-fetch capability of a sharded source: shard index and page index to response. -/
abbrev ShardFetch (α : Type) : Type := Nat → Nat → Option (PageResp α)

/-- Inner `while (hasNextPage)` loop of `fetchAllShifts`.  Mirrors the source:
fetch the page; a failed fetch exits the process; an empty page breaks the
loop without appending; otherwise append the items, continue exactly when
`links.next` is present, with the page index incremented by 1.  The second
component of the result is the ghost log of fetched page indices. -/
def fetchAllShiftsLoop (fetch : FlatFetch α) :
    Nat → Nat → List α → List Nat → Option (Except Unit (List α × List Nat))
  | 0, _, _, _ => none
  | fuel + 1, page, acc, log =>
    match fetch page with
    | none => some (Except.error ())
    | some resp =>
      if resp.data.length = 0 then some (Except.ok (acc, log ++ [page]))
      else if resp.hasNext then
        fetchAllShiftsLoop fetch fuel (page + 1) (acc ++ resp.data) (log ++ [page])
      else some (Except.ok (acc ++ resp.data, log ++ [page]))

/-- `fetchAllShifts` of the script: flat traversal starting at page 1 with an
empty accumulator. -/
def fetchAllShifts (fetch : FlatFetch α) (fuel : Nat) :
    Option (Except Unit (List α × List Nat)) :=
  fetchAllShiftsLoop fetch fuel 1 [] []

/-- Inner page loop of `fetchAllWorkplaces` for one shard.  Identical to the
flat loop except that every request carries the shard index and the loop
threads the `shardWorkplacesFetched` flag (`produced`), set to `true` as soon
as a non-empty page is appended.  The ghost log records `(shard, page)`
pairs. -/
def fetchShardLoop (fetch : ShardFetch α) (shard : Nat) :
    Nat → Nat → List α → Bool → List (Nat × Nat) →
    Option (Except Unit (List α × Bool × List (Nat × Nat)))
  | 0, _, _, _, _ => none
  | fuel + 1, page, acc, produced, log =>
    match fetch shard page with
    | none => some (Except.error ())
    | some resp =>
      if resp.data.length = 0 then some (Except.ok (acc, produced, log ++ [(shard, page)]))
      else if resp.hasNext then
        fetchShardLoop fetch shard fuel (page + 1) (acc ++ resp.data) true
          (log ++ [(shard, page)])
      else some (Except.ok (acc ++ resp.data, true, log ++ [(shard, page)]))

/-- Outer `while (true)` shard loop of `fetchAllWorkplaces`: run the inner
page loop for the current shard starting at page 1 with the flag reset to
`false`; if the shard produced no items, break out of the outer loop,
otherwise advance to the next shard index. -/
def fetchAllWorkplacesLoop (fetch : ShardFetch α) (ifuel : Nat) :
    Nat → Nat → List α → List (Nat × Nat) →
    Option (Except Unit (List α × List (Nat × Nat)))
  | 0, _, _, _ => none
  | ofuel + 1, shard, acc, log =>
    match fetchShardLoop fetch shard ifuel 1 acc false log with
    | none => none
    | some (Except.error e) => some (Except.error e)
    | some (Except.ok (acc2, produced, log2)) =>
      if produced then fetchAllWorkplacesLoop fetch ifuel ofuel (shard + 1) acc2 log2
      else some (Except.ok (acc2, log2))

/-- `fetchAllWorkplaces` of the script: sharded traversal starting at shard 0
with an empty accumulator. -/
def fetchAllWorkplaces (fetch : ShardFetch α) (ofuel ifuel : Nat) :
    Option (Except Unit (List α × List (Nat × Nat))) :=
  fetchAllWorkplacesLoop fetch ifuel ofuel 0 [] []

/-- Concatenation of the blocks `f p, f (p+1), ..., f (p+n-1)`, used to state
what a traversal collects: pages of one shard, or whole shards in shard-index
order. -/
def pagesJoin (f : Nat → List α) : Nat → Nat → List α
  | _, 0 => []
  | p, n + 1 => f p ++ pagesJoin f (p + 1) n

/-- A delivered listing response before the script's array check: the `data`
field as it arrived (`none` models a present but non-array `data` field — a
malformed response that does not throw) and the truthiness of `links.next`. -/
structure RawPage (α : Type) where
  data : Option (List α)
  hasNext : Bool

/-- Lines 48–50 and 95–97 of the script:
`Array.isArray(response.data.data) ? response.data.data : []` — a non-array
`data` field is coerced to the empty array. -/
def coercePage (r : RawPage α) : PageResp α :=
  { data := r.data.getD [], hasNext := r.hasNext }

/-- `fetchAllShifts` as seen from the wire: every delivered response passes
through the `Array.isArray` coercion before the loop inspects it. -/
def fetchAllShiftsRaw (fetch : Nat → Option (RawPage α)) (fuel : Nat) :
    Option (Except Unit (List α × List Nat)) :=
  fetchAllShifts (fun p => (fetch p).map coercePage) fuel

/-- `fetchAllWorkplaces` as seen from the wire: every delivered response
passes through the `Array.isArray` coercion before the loop inspects it. -/
def fetchAllWorkplacesRaw (fetch : Nat → Nat → Option (RawPage α))
    (ofuel ifuel : Nat) : Option (Except Unit (List α × List (Nat × Nat))) :=
  fetchAllWorkplaces (fun s p => (fetch s p).map coercePage) ofuel ifuel

/-- `Workplace` record of the script (`{id, name, status}`). -/
structure Workplace where
  id : Int
  name : String
  status : Int
deriving DecidableEq

/-- `Shift` record of the script (`{id, workplaceId}`). -/
structure ShiftRec where
  id : Int
  workplaceId : Int
deriving DecidableEq

/-- `WorkplaceWithShifts` output record of the script (`{name, shifts}`). -/
structure WorkplaceWithShifts where
  name : String
  shifts : Nat
deriving DecidableEq

/-- One step of the `shifts.forEach` counting loop:
`shiftCounts[id] = (shiftCounts[id] || 0) + 1`, with the record modelled as a
total function defaulting to 0. -/
def bumpCount (m : Int → Nat) (k : Int) : Int → Nat :=
  fun i => if i = k then m k + 1 else m i

/-- The `shiftCounts` record built by `getTopWorkplaces`: a shift is counted
exactly when `if (shift.workplaceId)` is truthy, i.e. the reference is
non-zero (a JS number is falsy exactly at 0/NaN). -/
def shiftCounts (shifts : List ShiftRec) : Int → Nat :=
  shifts.foldl (fun m s => if s.workplaceId ≠ 0 then bumpCount m s.workplaceId else m)
    (fun _ => 0)

/-- The `workplacesWithShifts` list of `getTopWorkplaces`: filter the active
workplaces (`status === 0`) and project each to `{name, shifts}` with the
count looked up in `shiftCounts` (`|| 0` default). -/
def projectWorkplaces (workplaces : List Workplace) (shifts : List ShiftRec) :
    List WorkplaceWithShifts :=
  (workplaces.filter (fun wp => wp.status == 0)).map
    (fun wp => { name := wp.name, shifts := shiftCounts shifts wp.id })

/-- The comparator `(a, b) => b.shifts - a.shifts` of the script, as the
boolean order it induces: `a` may precede `b` iff the comparator is ≤ 0. -/
def shiftsLe (a b : WorkplaceWithShifts) : Bool :=
  b.shifts ≤ a.shifts

/-- Pure body of `getTopWorkplaces` (the script applies it to the two
traversal results): filter + count + project, stable sort descending by
`shifts` (JS `Array.prototype.sort` is stable), truncate to the top 3. -/
def getTopWorkplaces (workplaces : List Workplace) (shifts : List ShiftRec) :
    List WorkplaceWithShifts :=
  ((projectWorkplaces workplaces shifts).mergeSort shiftsLe).take 3

/-- Spec-side count: the number of shift records referencing a given
workplace identifier, counting only non-null/non-zero references.  Stated
from the spec's words, to be compared with `shiftCounts`. -/
def refShiftCount (shifts : List ShiftRec) (k : Int) : Nat :=
  shifts.countP (fun s => s.workplaceId != 0 && s.workplaceId == k)

/-- Persisted shift record of `ShiftsService` (Prisma `Shift`): nullable
worker assignment and nullable cancellation timestamp. -/
structure Shift where
  id : Int
  workerId : Option Int
  cancelledAt : Option Int
deriving DecidableEq

/-- The two client-facing failures thrown by `ShiftsService`:
`NotFoundException` and `BadRequestException` (the invalid-state-transition
error). -/
inductive ServiceError where
  | notFound
  | badRequest
deriving DecidableEq

/-- The persistence collaborator: point lookup by identifier. -/
abbrev Db : Type := Int → Option Shift

/-- `prisma.shift.update({where: {id}, data: u})`: replace the record stored
at `id`. -/
def setShift (db : Db) (id : Int) (s : Shift) : Db :=
  fun i => if i = id then some s else db i

/-- JS truthiness of the nullable `workerId` field: `null` and `0` are falsy,
every other number truthy. -/
def truthy : Option Int → Bool
  | none => false
  | some n => n != 0

/-- `ShiftsService.claim`: look the shift up (`NotFoundException` when
absent); reject with `BadRequestException` when `if (shift.workerId)` is
truthy; otherwise update the record, setting the worker and clearing
`cancelledAt`.  The call returns the thrown error or the updated record,
paired with the resulting store. -/
def claim (db : Db) (id workerId : Int) : Except ServiceError Shift × Db :=
  match db id with
  | none => (Except.error ServiceError.notFound, db)
  | some shift =>
    if truthy shift.workerId then (Except.error ServiceError.badRequest, db)
    else
      let updated : Shift := { shift with workerId := some workerId, cancelledAt := none }
      (Except.ok updated, setShift db id updated)

/-- `ShiftsService.cancel`: look the shift up (`NotFoundException` when
absent); reject with `BadRequestException` when `if (!shift.workerId)`, i.e.
when the worker field is falsy; otherwise update the record, setting
`cancelledAt` to the current time and clearing the worker. -/
def cancel (db : Db) (id : Int) (now : Int) : Except ServiceError Shift × Db :=
  match db id with
  | none => (Except.error ServiceError.notFound, db)
  | some shift =>
    if truthy shift.workerId then
      let updated : Shift := { shift with workerId := none, cancelledAt := some now }
      (Except.ok updated, setShift db id updated)
    else (Except.error ServiceError.badRequest, db)

/-- Concrete two-page flat source used to witness C2. -/
def flatPagesW : Nat → PageResp Nat := fun i =>
  if i = 1 then ⟨[10, 11], true⟩ else if i = 2 then ⟨[12], false⟩ else ⟨[99], true⟩

/-- Concrete sharded source used to witness C1: shard 0 has two pages, shard
1 is empty on its first page, shard 2 is non-empty but beyond the gap and is
never probed nor collected. -/
def shardPagesW : Nat → Nat → PageResp Nat := fun s p =>
  if s = 0 then (if p = 1 then ⟨[1, 2], true⟩ else ⟨[3], false⟩)
  else if s = 1 then ⟨[], true⟩
  else ⟨[42], false⟩

/-! ## Flat traversal -/

theorem fetchAllShiftsLoop_ok {α : Type} (fetch : FlatFetch α) (pages : Nat → PageResp α) :
    ∀ (m fuel p : Nat) (acc : List α) (log : List Nat),
      (∀ i, p ≤ i → i ≤ p + m → fetch i = some (pages i)) →
      (∀ i, p ≤ i → i < p + m → (pages i).data ≠ [] ∧ (pages i).hasNext = true) →
      ((pages (p + m)).data = [] ∨ (pages (p + m)).hasNext = false) →
      m < fuel →
      fetchAllShiftsLoop fetch fuel p acc log =
        some (Except.ok (acc ++ pagesJoin (fun i => (pages i).data) p (m + 1),
          log ++ List.range' p (m + 1))) := by
  intro m
  induction m with
  | zero =>
    intro fuel p acc log hf hmid hterm hfuel
    match fuel, hfuel with
    | f + 1, _ =>
      have hfp : fetch p = some (pages p) := hf p le_rfl (by omega)
      simp only [Nat.add_zero] at hterm
      rcases hterm with hd | hn
      · simp [fetchAllShiftsLoop, hfp, hd, pagesJoin, List.range'_one]
      · by_cases hd : (pages p).data = []
        · simp [fetchAllShiftsLoop, hfp, hd, pagesJoin, List.range'_one]
        · have hlen : ¬(pages p).data.length = 0 := by
            simpa [List.length_eq_zero] using hd
          simp [fetchAllShiftsLoop, hfp, hlen, hn, pagesJoin, List.range'_one]
  | succ n ih =>
    intro fuel p acc log hf hmid hterm hfuel
    match fuel, hfuel with
    | f + 1, hfuel =>
      have hfp : fetch p = some (pages p) := hf p le_rfl (by omega)
      have hmp := hmid p le_rfl (by omega)
      have hlen : ¬(pages p).data.length = 0 := by
        simpa [List.length_eq_zero] using hmp.1
      have hrec := ih f (p + 1) (acc ++ (pages p).data) (log ++ [p])
        (fun i h1 h2 => hf i (by omega) (by omega))
        (fun i h1 h2 => hmid i (by omega) (by omega))
        (by have : p + 1 + n = p + (n + 1) := by omega
            rw [this]; exact hterm)
        (by omega)
      simp only [fetchAllShiftsLoop, hfp, hlen, if_false, hmp.2, if_true]
      rw [hrec]
      have hjoin : pagesJoin (fun i => (pages i).data) p (n + 1 + 1) =
          (pages p).data ++ pagesJoin (fun i => (pages i).data) (p + 1) (n + 1) := rfl
      have hrange : List.range' p (n + 1 + 1) = p :: List.range' (p + 1) (n + 1) :=
        List.range'_succ p (n + 1) 1
      rw [hjoin, hrange]
      simp [List.append_assoc]

/-- Claim C2: a flat traversal returns exactly the concatenation, in page
order, of the pages up to and including the first terminal page (empty data
or absent next link, whichever comes first), and the pages requested are
exactly 1, 2, ..., k — each fetched once, none skipped. -/
theorem fetchAllShifts_spec {α : Type} (fetch : FlatFetch α) (pages : Nat → PageResp α)
    (k fuel : Nat) (hk : 1 ≤ k)
    (hf : ∀ i, 1 ≤ i → i ≤ k → fetch i = some (pages i))
    (hmid : ∀ i, 1 ≤ i → i < k → (pages i).data ≠ [] ∧ (pages i).hasNext = true)
    (hterm : (pages k).data = [] ∨ (pages k).hasNext = false)
    (hfuel : k ≤ fuel) :
    fetchAllShifts fetch fuel =
      some (Except.ok (pagesJoin (fun i => (pages i).data) 1 k, List.range' 1 k)) := by
  obtain ⟨m, rfl⟩ : ∃ m, k = m + 1 := ⟨k - 1, by omega⟩
  have h := fetchAllShiftsLoop_ok fetch pages m fuel 1 [] []
    (fun i h1 h2 => hf i h1 (by omega))
    (fun i h1 h2 => hmid i h1 (by omega))
    (by have : 1 + m = m + 1 := by omega
        rw [this]; exact hterm)
    (by omega)
  simpa [fetchAllShifts] using h

theorem fetchAllShifts_spec_witness :
    fetchAllShifts (fun i => some (flatPagesW i)) 2 =
      some (Except.ok ([10, 11, 12], [1, 2])) := by
  have h := fetchAllShifts_spec (fun i => some (flatPagesW i)) flatPagesW 2 2
    (by omega)
    (fun i h1 h2 => rfl)
    (fun i h1 h2 => by
      interval_cases i
      · exact ⟨by simp [flatPagesW], by simp [flatPagesW]⟩)
    (Or.inr (by simp [flatPagesW]))
    (by omega)
  simpa [pagesJoin, flatPagesW, List.range'] using h

/-! ## Sharded traversal -/

theorem fetchShardLoop_ok_true {α : Type} (fetch : ShardFetch α) (s : Nat)
    (pages : Nat → PageResp α) :
    ∀ (m fuel p : Nat) (acc : List α) (log : List (Nat × Nat)),
      (∀ i, p ≤ i → i ≤ p + m → fetch s i = some (pages i)) →
      (∀ i, p ≤ i → i < p + m → (pages i).data ≠ [] ∧ (pages i).hasNext = true) →
      ((pages (p + m)).data = [] ∨ (pages (p + m)).hasNext = false) →
      m < fuel →
      fetchShardLoop fetch s fuel p acc true log =
        some (Except.ok (acc ++ pagesJoin (fun i => (pages i).data) p (m + 1), true,
          log ++ (List.range' p (m + 1)).map (fun i => (s, i)))) := by
  intro m
  induction m with
  | zero =>
    intro fuel p acc log hf hmid hterm hfuel
    match fuel, hfuel with
    | f + 1, _ =>
      have hfp : fetch s p = some (pages p) := hf p le_rfl (by omega)
      simp only [Nat.add_zero] at hterm
      rcases hterm with hd | hn
      · simp [fetchShardLoop, hfp, hd, pagesJoin, List.range'_one]
      · by_cases hd : (pages p).data = []
        · simp [fetchShardLoop, hfp, hd, pagesJoin, List.range'_one]
        · have hlen : ¬(pages p).data.length = 0 := by
            simpa [List.length_eq_zero] using hd
          simp [fetchShardLoop, hfp, hlen, hn, pagesJoin, List.range'_one]
  | succ n ih =>
    intro fuel p acc log hf hmid hterm hfuel
    match fuel, hfuel with
    | f + 1, hfuel =>
      have hfp : fetch s p = some (pages p) := hf p le_rfl (by omega)
      have hmp := hmid p le_rfl (by omega)
      have hlen : ¬(pages p).data.length = 0 := by
        simpa [List.length_eq_zero] using hmp.1
      have hrec := ih f (p + 1) (acc ++ (pages p).data) (log ++ [(s, p)])
        (fun i h1 h2 => hf i (by omega) (by omega))
        (fun i h1 h2 => hmid i (by omega) (by omega))
        (by have : p + 1 + n = p + (n + 1) := by omega
            rw [this]; exact hterm)
        (by omega)
      simp only [fetchShardLoop, hfp, hlen, if_false, hmp.2, if_true]
      rw [hrec]
      have hjoin : pagesJoin (fun i => (pages i).data) p (n + 1 + 1) =
          (pages p).data ++ pagesJoin (fun i => (pages i).data) (p + 1) (n + 1) := rfl
      have hrange : List.range' p (n + 1 + 1) = p :: List.range' (p + 1) (n + 1) :=
        List.range'_succ p (n + 1) 1
      rw [hjoin, hrange]
      simp [List.append_assoc]

theorem fetchShardLoop_entry {α : Type} (fetch : ShardFetch α) (s : Nat)
    (pages : Nat → PageResp α) (m fuel : Nat) (acc : List α) (log : List (Nat × Nat))
    (hf : ∀ i, 1 ≤ i → i ≤ 1 + m → fetch s i = some (pages i))
    (hmid : ∀ i, 1 ≤ i → i < 1 + m → (pages i).data ≠ [] ∧ (pages i).hasNext = true)
    (hterm : (pages (1 + m)).data = [] ∨ (pages (1 + m)).hasNext = false)
    (hne : (pages 1).data ≠ [])
    (hfuel : m < fuel) :
    fetchShardLoop fetch s fuel 1 acc false log =
      some (Except.ok (acc ++ pagesJoin (fun i => (pages i).data) 1 (m + 1), true,
        log ++ (List.range' 1 (m + 1)).map (fun i => (s, i)))) := by
  have hlen : ¬(pages 1).data.length = 0 := by
    simpa [List.length_eq_zero] using hne
  match m, fuel, hfuel with
  | 0, f + 1, _ =>
    have hfp : fetch s 1 = some (pages 1) := hf 1 le_rfl (by omega)
    have hn : (pages 1).hasNext = false := by
      rcases hterm with hd | hn
      · exact absurd hd hne
      · exact hn
    simp [fetchShardLoop, hfp, hlen, hn, pagesJoin, List.range'_one]
  | n + 1, f + 1, hfuel =>
    have hfp : fetch s 1 = some (pages 1) := hf 1 le_rfl (by omega)
    have hmp := hmid 1 le_rfl (by omega)
    have hrec := fetchShardLoop_ok_true fetch s pages n f 2 (acc ++ (pages 1).data)
      (log ++ [(s, 1)])
      (fun i h1 h2 => hf i (by omega) (by omega))
      (fun i h1 h2 => hmid i (by omega) (by omega))
      (by have : 2 + n = 1 + (n + 1) := by omega
          rw [this]; exact hterm)
      (by omega)
    simp only [fetchShardLoop, hfp, hlen, if_false, hmp.2, if_true]
    rw [hrec]
    have hjoin : pagesJoin (fun i => (pages i).data) 1 (n + 1 + 1) =
        (pages 1).data ++ pagesJoin (fun i => (pages i).data) 2 (n + 1) := rfl
    have hrange : List.range' 1 (n + 1 + 1) = 1 :: List.range' 2 (n + 1) :=
      List.range'_succ 1 (n + 1) 1
    rw [hjoin, hrange]
    simp [List.append_assoc]

theorem fetchShardLoop_empty {α : Type} (fetch : ShardFetch α) (s : Nat) (r : PageResp α)
    (fuel : Nat) (acc : List α) (log : List (Nat × Nat))
    (hf : fetch s 1 = some r) (hd : r.data = []) (hfuel : 1 ≤ fuel) :
    fetchShardLoop fetch s fuel 1 acc false log =
      some (Except.ok (acc, false, log ++ [(s, 1)])) := by
  match fuel, hfuel with
  | f + 1, _ => simp [fetchShardLoop, hf, hd]

theorem fetchAllWorkplacesLoop_ok {α : Type} (fetch : ShardFetch α)
    (pages : Nat → Nat → PageResp α) (t : Nat → Nat) (ifuel : Nat) :
    ∀ (n ofuel s0 : Nat) (acc : List α) (log : List (Nat × Nat)),
      (∀ s, s0 ≤ s → s < s0 + n →
        (∀ i, 1 ≤ i → i ≤ t s → fetch s i = some (pages s i)) ∧
        (∀ i, 1 ≤ i → i < t s → (pages s i).data ≠ [] ∧ (pages s i).hasNext = true) ∧
        ((pages s (t s)).data = [] ∨ (pages s (t s)).hasNext = false) ∧
        1 ≤ t s ∧ (pages s 1).data ≠ [] ∧ t s ≤ ifuel) →
      fetch (s0 + n) 1 = some (pages (s0 + n) 1) →
      (pages (s0 + n) 1).data = [] →
      1 ≤ ifuel → n < ofuel →
      fetchAllWorkplacesLoop fetch ifuel ofuel s0 acc log =
        some (Except.ok
          (acc ++ pagesJoin (fun s => pagesJoin (fun i => (pages s i).data) 1 (t s)) s0 n,
           log ++ pagesJoin (fun s => (List.range' 1 (t s)).map (fun i => (s, i))) s0 n
             ++ [(s0 + n, 1)])) := by
  intro n
  induction n with
  | zero =>
    intro ofuel s0 acc log hsh hfS hdS hif hof
    match ofuel, hof with
    | f + 1, _ =>
      have hempty := fetchShardLoop_empty fetch s0 (pages s0 1) ifuel acc log
        (by simpa using hfS) (by simpa using hdS) hif
      simp only [fetchAllWorkplacesLoop, hempty]
      simp [pagesJoin]
  | succ n ih =>
    intro ofuel s0 acc log hsh hfS hdS hif hof
    match ofuel, hof with
    | f + 1, hof =>
      obtain ⟨hfs, hmids, hterms, hts, hnes, hifs⟩ := hsh s0 le_rfl (by omega)
      obtain ⟨m, hm⟩ : ∃ m, t s0 = m + 1 := ⟨t s0 - 1, by omega⟩
      have hentry := fetchShardLoop_entry fetch s0 (pages s0) m ifuel acc log
        (fun i h1 h2 => hfs i h1 (by omega))
        (fun i h1 h2 => hmids i h1 (by omega))
        (by have : 1 + m = t s0 := by omega
            rw [this]; exact hterms)
        hnes (by omega)
      simp only [fetchAllWorkplacesLoop, hentry, if_true]
      have hrec := ih f (s0 + 1)
        (acc ++ pagesJoin (fun i => (pages s0 i).data) 1 (m + 1))
        (log ++ (List.range' 1 (m + 1)).map (fun i => (s0, i)))
        (fun s hs1 hs2 => hsh s (by omega) (by omega))
        (by have : s0 + 1 + n = s0 + (n + 1) := by omega
            rw [this]; exact hfS)
        (by have : s0 + 1 + n = s0 + (n + 1) := by omega
            rw [this]; exact hdS)
        hif (by omega)
      rw [hrec]
      have hjoin1 : pagesJoin (fun s => pagesJoin (fun i => (pages s i).data) 1 (t s))
            s0 (n + 1) =
          pagesJoin (fun i => (pages s0 i).data) 1 (t s0) ++
            pagesJoin (fun s => pagesJoin (fun i => (pages s i).data) 1 (t s)) (s0 + 1) n :=
        rfl
      have hjoin2 : pagesJoin (fun s => (List.range' 1 (t s)).map (fun i => (s, i)))
            s0 (n + 1) =
          (List.range' 1 (t s0)).map (fun i => (s0, i)) ++
            pagesJoin (fun s => (List.range' 1 (t s)).map (fun i => (s, i))) (s0 + 1) n :=
        rfl
      rw [hjoin1, hjoin2, hm]
      have hs1 : s0 + 1 + n = s0 + (n + 1) := by omega
      rw [hs1]
      simp [List.append_assoc]

/-- Claim C1: the sharded traversal probes shards contiguously from 0,
collects the items of the productive shards 0, ..., S-1 in shard-index, then
page, then in-page order, and stops the outer loop at shard S, the first
shard whose first page is empty: the request log ends with `(S, 1)`, no later
shard index is probed, and the behavior of the fetch capability at any shard
beyond S (which may well be non-empty) is irrelevant to the result. -/
theorem fetchAllWorkplaces_spec {α : Type} (fetch : ShardFetch α)
    (pages : Nat → Nat → PageResp α) (t : Nat → Nat) (S ofuel ifuel : Nat)
    (hsh : ∀ s, s < S →
      (∀ i, 1 ≤ i → i ≤ t s → fetch s i = some (pages s i)) ∧
      (∀ i, 1 ≤ i → i < t s → (pages s i).data ≠ [] ∧ (pages s i).hasNext = true) ∧
      ((pages s (t s)).data = [] ∨ (pages s (t s)).hasNext = false) ∧
      1 ≤ t s ∧ (pages s 1).data ≠ [] ∧ t s ≤ ifuel)
    (hfS : fetch S 1 = some (pages S 1))
    (hdS : (pages S 1).data = [])
    (hif : 1 ≤ ifuel) (hof : S < ofuel) :
    fetchAllWorkplaces fetch ofuel ifuel =
      some (Except.ok
        (pagesJoin (fun s => pagesJoin (fun i => (pages s i).data) 1 (t s)) 0 S,
         pagesJoin (fun s => (List.range' 1 (t s)).map (fun i => (s, i))) 0 S
           ++ [(S, 1)])) := by
  have h := fetchAllWorkplacesLoop_ok fetch pages t ifuel S ofuel 0 [] []
    (fun s hs1 hs2 => hsh s (by omega))
    (by simpa using hfS) (by simpa using hdS) hif hof
  simpa [fetchAllWorkplaces] using h

theorem fetchAllWorkplaces_spec_witness :
    fetchAllWorkplaces (fun s p => some (shardPagesW s p)) 2 2 =
      some (Except.ok ([1, 2, 3], [(0, 1), (0, 2), (1, 1)])) := by
  have h := fetchAllWorkplaces_spec (fun s p => some (shardPagesW s p)) shardPagesW
    (fun _ => 2) 1 2 2
    (fun s hs => by
      interval_cases s
      · exact ⟨fun i h1 h2 => rfl,
          fun i h1 h2 => by interval_cases i; exact ⟨by simp [shardPagesW], by simp [shardPagesW]⟩,
          Or.inr (by simp [shardPagesW]),
          by norm_num, by simp [shardPagesW], by norm_num⟩)
    rfl (by simp [shardPagesW]) (by omega) (by omega)
  simpa [pagesJoin, shardPagesW, List.range'] using h

/-! ## Transport failures -/

theorem fetchAllShiftsLoop_fatal {α : Type} (fetch : FlatFetch α) (pages : Nat → PageResp α) :
    ∀ (m fuel p : Nat) (acc : List α) (log : List Nat),
      (∀ i, p ≤ i → i < p + m →
        fetch i = some (pages i) ∧ (pages i).data ≠ [] ∧ (pages i).hasNext = true) →
      fetch (p + m) = none → m < fuel →
      fetchAllShiftsLoop fetch fuel p acc log = some (Except.error ()) := by
  intro m
  induction m with
  | zero =>
    intro fuel p acc log hmid hfail hfuel
    match fuel, hfuel with
    | f + 1, _ =>
      simp only [Nat.add_zero] at hfail
      simp [fetchAllShiftsLoop, hfail]
  | succ n ih =>
    intro fuel p acc log hmid hfail hfuel
    match fuel, hfuel with
    | f + 1, hfuel =>
      obtain ⟨hfp, hd, hn⟩ := hmid p le_rfl (by omega)
      have hlen : ¬(pages p).data.length = 0 := by
        simpa [List.length_eq_zero] using hd
      simp only [fetchAllShiftsLoop, hfp, hlen, if_false, hn, if_true]
      exact ih f (p + 1) (acc ++ (pages p).data) (log ++ [p])
        (fun i h1 h2 => hmid i (by omega) (by omega))
        (by have : p + 1 + n = p + (n + 1) := by omega
            rw [this]; exact hfail)
        (by omega)

theorem fetchShardLoop_fatal {α : Type} (fetch : ShardFetch α) (s : Nat)
    (pages : Nat → PageResp α) :
    ∀ (m fuel p : Nat) (acc : List α) (produced : Bool) (log : List (Nat × Nat)),
      (∀ i, p ≤ i → i < p + m →
        fetch s i = some (pages i) ∧ (pages i).data ≠ [] ∧ (pages i).hasNext = true) →
      fetch s (p + m) = none → m < fuel →
      fetchShardLoop fetch s fuel p acc produced log = some (Except.error ()) := by
  intro m
  induction m with
  | zero =>
    intro fuel p acc produced log hmid hfail hfuel
    match fuel, hfuel with
    | f + 1, _ =>
      simp only [Nat.add_zero] at hfail
      simp [fetchShardLoop, hfail]
  | succ n ih =>
    intro fuel p acc produced log hmid hfail hfuel
    match fuel, hfuel with
    | f + 1, hfuel =>
      obtain ⟨hfp, hd, hn⟩ := hmid p le_rfl (by omega)
      have hlen : ¬(pages p).data.length = 0 := by
        simpa [List.length_eq_zero] using hd
      simp only [fetchShardLoop, hfp, hlen, if_false, hn, if_true]
      exact ih f (p + 1) (acc ++ (pages p).data) true (log ++ [(s, p)])
        (fun i h1 h2 => hmid i (by omega) (by omega))
        (by have : p + 1 + n = p + (n + 1) := by omega
            rw [this]; exact hfail)
        (by omega)

theorem fetchAllWorkplacesLoop_fatal {α : Type} (fetch : ShardFetch α)
    (pages : Nat → Nat → PageResp α) (t : Nat → Nat) (ifuel j : Nat) :
    ∀ (n ofuel s0 : Nat) (acc : List α) (log : List (Nat × Nat)),
      (∀ s, s0 ≤ s → s < s0 + n →
        (∀ i, 1 ≤ i → i ≤ t s → fetch s i = some (pages s i)) ∧
        (∀ i, 1 ≤ i → i < t s → (pages s i).data ≠ [] ∧ (pages s i).hasNext = true) ∧
        ((pages s (t s)).data = [] ∨ (pages s (t s)).hasNext = false) ∧
        1 ≤ t s ∧ (pages s 1).data ≠ [] ∧ t s ≤ ifuel) →
      (∀ i, 1 ≤ i → i < j →
        fetch (s0 + n) i = some (pages (s0 + n) i) ∧
        (pages (s0 + n) i).data ≠ [] ∧ (pages (s0 + n) i).hasNext = true) →
      fetch (s0 + n) j = none → 1 ≤ j → j ≤ ifuel → n < ofuel →
      fetchAllWorkplacesLoop fetch ifuel ofuel s0 acc log = some (Except.error ()) := by
  intro n
  induction n with
  | zero =>
    intro ofuel s0 acc log hsh hmidf hfail hj hjif hof
    match ofuel, hof with
    | f + 1, _ =>
      have hfat := fetchShardLoop_fatal fetch s0 (pages s0) (j - 1) ifuel 1 acc false log
        (fun i h1 h2 => by
          have := hmidf i h1 (by omega)
          simpa using this)
        (by have : 1 + (j - 1) = j := by omega
            rw [this]; simpa using hfail)
        (by omega)
      simp only [fetchAllWorkplacesLoop, hfat]
  | succ n ih =>
    intro ofuel s0 acc log hsh hmidf hfail hj hjif hof
    match ofuel, hof with
    | f + 1, hof =>
      obtain ⟨hfs, hmids, hterms, hts, hnes, hifs⟩ := hsh s0 le_rfl (by omega)
      obtain ⟨m, hm⟩ : ∃ m, t s0 = m + 1 := ⟨t s0 - 1, by omega⟩
      have hentry := fetchShardLoop_entry fetch s0 (pages s0) m ifuel acc log
        (fun i h1 h2 => hfs i h1 (by omega))
        (fun i h1 h2 => hmids i h1 (by omega))
        (by have : 1 + m = t s0 := by omega
            rw [this]; exact hterms)
        hnes (by omega)
      simp only [fetchAllWorkplacesLoop, hentry, if_true]
      exact ih f (s0 + 1) _ _
        (fun s hs1 hs2 => hsh s (by omega) (by omega))
        (by have : s0 + 1 + n = s0 + (n + 1) := by omega
            rw [this]; exact hmidf)
        (by have : s0 + 1 + n = s0 + (n + 1) := by omega
            rw [this]; exact hfail)
        hj hjif (by omega)

/-- Claim C5 (amended): any transport/protocol failure that makes the page
request or its handling throw inside the try/catch — network failure,
non-success status, or a response so malformed its handling throws — is fatal
to the whole traversal: both `fetchAllShifts` and `fetchAllWorkplaces`
surface `process.exit(1)` (the `Except.error` outcome) and return no partial
result.  The oracle's `none` models exactly this throwing class; a delivered
response with a non-array `data` field does not belong to it — see
`transport_failure_cex` for the traversals swallowing that failure. -/
theorem transport_failure_fatal :
    (∀ (α : Type) (fetch : FlatFetch α) (pages : Nat → PageResp α) (k fuel : Nat),
      (∀ i, 1 ≤ i → i < k →
        fetch i = some (pages i) ∧ (pages i).data ≠ [] ∧ (pages i).hasNext = true) →
      fetch k = none → 1 ≤ k → k ≤ fuel →
      fetchAllShifts fetch fuel = some (Except.error ())) ∧
    (∀ (α : Type) (fetch : ShardFetch α) (pages : Nat → Nat → PageResp α)
        (t : Nat → Nat) (S j ofuel ifuel : Nat),
      (∀ s, s < S →
        (∀ i, 1 ≤ i → i ≤ t s → fetch s i = some (pages s i)) ∧
        (∀ i, 1 ≤ i → i < t s → (pages s i).data ≠ [] ∧ (pages s i).hasNext = true) ∧
        ((pages s (t s)).data = [] ∨ (pages s (t s)).hasNext = false) ∧
        1 ≤ t s ∧ (pages s 1).data ≠ [] ∧ t s ≤ ifuel) →
      (∀ i, 1 ≤ i → i < j →
        fetch S i = some (pages S i) ∧
        (pages S i).data ≠ [] ∧ (pages S i).hasNext = true) →
      fetch S j = none → 1 ≤ j → j ≤ ifuel → S < ofuel →
      fetchAllWorkplaces fetch ofuel ifuel = some (Except.error ())) := by
  constructor
  · intro α fetch pages k fuel hmid hfail hk hfuel
    have h := fetchAllShiftsLoop_fatal fetch pages (k - 1) fuel 1 [] []
      (fun i h1 h2 => hmid i h1 (by omega))
      (by have : 1 + (k - 1) = k := by omega
          rw [this]; exact hfail)
      (by omega)
    simpa [fetchAllShifts] using h
  · intro α fetch pages t S j ofuel ifuel hsh hmidf hfail hj hjif hof
    have h := fetchAllWorkplacesLoop_fatal fetch pages t ifuel j S ofuel 0 [] []
      (fun s hs1 hs2 => hsh s (by omega))
      (by simpa using hmidf)
      (by simpa using hfail)
      hj hjif hof
    simpa [fetchAllWorkplaces] using h

theorem transport_failure_fatal_witness :
    fetchAllShifts (fun _ => (none : Option (PageResp Nat))) 1 = some (Except.error ()) ∧
    fetchAllWorkplaces (fun _ _ => (none : Option (PageResp Nat))) 1 1 =
      some (Except.error ()) := by
  constructor
  · exact transport_failure_fatal.1 Nat (fun _ => none) (fun _ => ⟨[], false⟩) 1 1
      (fun i h1 h2 => by omega) rfl (by omega) (by omega)
  · exact transport_failure_fatal.2 Nat (fun _ _ => none) (fun _ _ => ⟨[], false⟩)
      (fun _ => 1) 0 1 1 1
      (fun s hs => by omega) (fun i h1 h2 => by omega) rfl (by omega) (by omega) (by omega)

/-- Counterexample to claim C5 as stated: a malformed response — a delivered
response whose `data` field is not an array — is a protocol failure during a
page fetch, yet it does not abort the traversal as a fatal error.  The
`Array.isArray` coercion turns it into an empty page, the traversal
terminates normally, and the items accumulated before the failure come back
as a partial result: the flat traversal swallows the malformed page 2 and
returns page 1's items; the sharded traversal swallows a malformed tail page
of shard 0 and a malformed first page of shard 1 — the latter even ends the
whole shard scan — and returns shard 0's first page.  Both responses even
assert `links.next`, so the source was not exhausted. -/
theorem transport_failure_cex :
    fetchAllShiftsRaw
        (fun p => if p = 1 then some (RawPage.mk (some [10]) true)
          else some (RawPage.mk none true)) 2 =
      some (Except.ok ([10], [1, 2])) ∧
    fetchAllWorkplacesRaw
        (fun s p =>
          if s = 0 then
            (if p = 1 then some (RawPage.mk (some [1, 2]) true)
             else some (RawPage.mk none true))
          else some (RawPage.mk none true)) 2 2 =
      some (Except.ok ([1, 2], [(0, 1), (0, 2), (1, 1)])) :=
  ⟨rfl, rfl⟩

/-! ## Shift lifecycle -/

/-- Counterexample to claim C3 as stated: the store holds shift 1 with an
existing (non-null) worker assignment, worker 0, yet `claim` does not fail
with the invalid-state-transition error — it succeeds and silently overwrites
the assignment, because the precondition tests JS truthiness of the worker
field and the number 0 is falsy. -/
theorem claim_on_claimed_cex :
    ((fun i => if i = 1 then some (Shift.mk 1 (some 0) none) else none : Db) 1 =
      some (Shift.mk 1 (some 0) none)) ∧
    (claim (fun i => if i = 1 then some (Shift.mk 1 (some 0) none) else none) 1 7).1 =
      Except.ok (Shift.mk 1 (some 7) none) := by
  exact ⟨by simp, rfl⟩

/-- Claim C3 (amended): for every stored shift whose worker field is truthy —
non-null and non-zero — `claim` fails with the invalid-state-transition error
(`BadRequestException`) and performs no mutation: the store comes back
unchanged. -/
theorem claim_on_claimed_fails (db : Db) (id w : Int) (s : Shift)
    (hdb : db id = some s) (hcl : truthy s.workerId = true) :
    claim db id w = (Except.error ServiceError.badRequest, db) := by
  simp [claim, hdb, hcl]

theorem claim_on_claimed_fails_witness :
    claim (fun i => if i = 2 then some (Shift.mk 2 (some 5) none) else none) 2 9 =
      (Except.error ServiceError.badRequest,
       fun i => if i = 2 then some (Shift.mk 2 (some 5) none) else none) :=
  claim_on_claimed_fails _ 2 9 (Shift.mk 2 (some 5) none) (by simp) (by decide)

/-- Claim C4: cancelling a stored shift that has no worker assignment fails
with the invalid-state-transition error (`BadRequestException`) and performs
no mutation: the store comes back unchanged. -/
theorem cancel_on_unclaimed_fails (db : Db) (id now : Int) (s : Shift)
    (hdb : db id = some s) (hun : s.workerId = none) :
    cancel db id now = (Except.error ServiceError.badRequest, db) := by
  simp [cancel, hdb, hun, truthy]

theorem cancel_on_unclaimed_fails_witness :
    cancel (fun i => if i = 3 then some (Shift.mk 3 none (some 11)) else none) 3 12 =
      (Except.error ServiceError.badRequest,
       fun i => if i = 3 then some (Shift.mk 3 none (some 11)) else none) :=
  cancel_on_unclaimed_fails _ 3 12 (Shift.mk 3 none (some 11)) (by simp) rfl

/-- Counterexample to claim C6 as stated: with worker identifier w = 0 the
round trip breaks — `claim(1, 0)` on an unclaimed shift succeeds (workerId is
never validated), but the subsequent `cancel` then rejects the shift as not
claimed, since the stored worker 0 is falsy; the sequence does not succeed. -/
theorem claim_cancel_claim_cex :
    ((fun i => if i = 1 then some (Shift.mk 1 none none) else none : Db) 1 =
      some (Shift.mk 1 none none)) ∧
    (claim (fun i => if i = 1 then some (Shift.mk 1 none none) else none) 1 0).1 =
      Except.ok (Shift.mk 1 (some 0) none) ∧
    (cancel (claim (fun i => if i = 1 then some (Shift.mk 1 none none) else none) 1 0).2
        1 5).1 =
      Except.error ServiceError.badRequest := by
  exact ⟨by simp, rfl, rfl⟩

/-- Claim C6 (amended): for every stored shift in the unclaimed state, every
non-zero (truthy) worker identifier w and arbitrary worker identifier w2, the
sequence `claim(id, w)`, `cancel(id)`, `claim(id, w2)` succeeds step by step
and yields a persisted record whose worker assignment is w2 and whose
cancellation timestamp is null: the re-claim clears the cancellation history
recorded by the intervening cancel. -/
theorem claim_step (db : Db) (id w : Int) (s : Shift)
    (hdb : db id = some s) (ht : truthy s.workerId = false) :
    claim db id w =
      (Except.ok { s with workerId := some w, cancelledAt := none },
       setShift db id { s with workerId := some w, cancelledAt := none }) := by
  simp [claim, hdb, ht]

theorem cancel_step (db : Db) (id now : Int) (s : Shift)
    (hdb : db id = some s) (ht : truthy s.workerId = true) :
    cancel db id now =
      (Except.ok { s with workerId := none, cancelledAt := some now },
       setShift db id { s with workerId := none, cancelledAt := some now }) := by
  simp [cancel, hdb, ht]

theorem claim_cancel_claim_roundtrip (db : Db) (id w w2 now : Int) (s : Shift)
    (hdb : db id = some s) (hun : s.workerId = none) (hw : w ≠ 0) :
    (claim db id w).1 = Except.ok { s with workerId := some w, cancelledAt := none } ∧
    (cancel (claim db id w).2 id now).1 =
      Except.ok { s with workerId := none, cancelledAt := some now } ∧
    (claim (cancel (claim db id w).2 id now).2 id w2).1 =
      Except.ok { s with workerId := some w2, cancelledAt := none } ∧
    (claim (cancel (claim db id w).2 id now).2 id w2).2 id =
      some { s with workerId := some w2, cancelledAt := none } := by
  have h1 := claim_step db id w s hdb (by rw [hun]; rfl)
  have hdb1 : (claim db id w).2 id =
      some { s with workerId := some w, cancelledAt := none } := by
    rw [h1]; simp [setShift]
  have htw : truthy (some w) = true := by simp [truthy, hw]
  have h2 := cancel_step (claim db id w).2 id now
    { s with workerId := some w, cancelledAt := none } hdb1 htw
  have hdb2 : (cancel (claim db id w).2 id now).2 id =
      some { s with workerId := none, cancelledAt := some now } := by
    rw [h2]; simp [setShift]
  have h3 := claim_step (cancel (claim db id w).2 id now).2 id w2
    { s with workerId := none, cancelledAt := some now } hdb2 rfl
  refine ⟨by rw [h1], by rw [h2], by rw [h3], ?_⟩
  rw [h3]; simp [setShift]

theorem claim_cancel_claim_roundtrip_witness :
    (claim (fun i => if i = 1 then some (Shift.mk 1 none none) else none) 1 4).1 =
      Except.ok (Shift.mk 1 (some 4) none) ∧
    (cancel (claim (fun i => if i = 1 then some (Shift.mk 1 none none) else none) 1 4).2
        1 5).1 = Except.ok (Shift.mk 1 none (some 5)) ∧
    (claim (cancel (claim (fun i => if i = 1 then some (Shift.mk 1 none none) else none)
        1 4).2 1 5).2 1 6).1 = Except.ok (Shift.mk 1 (some 6) none) ∧
    (claim (cancel (claim (fun i => if i = 1 then some (Shift.mk 1 none none) else none)
        1 4).2 1 5).2 1 6).2 1 = some (Shift.mk 1 (some 6) none) := by
  have h := claim_cancel_claim_roundtrip
    (fun i => if i = 1 then some (Shift.mk 1 none none) else none) 1 4 6 5
    (Shift.mk 1 none none) (by simp) rfl (by norm_num)
  exact h

/-- Claim C10: both lifecycle preconditions test JS truthiness of the worker
field rather than null-ness, and `claim` never validates its workerId
argument.  A stored shift whose worker assignment is the integer 0 is treated
as unclaimed by `claim`, which succeeds and overwrites the assignment, while
`cancel` rejects the same shift as not claimed; and `claim` with workerId 0
on an unclaimed shift itself succeeds and persists exactly such a record. -/
theorem truthiness_zero_worker (db : Db) (id w now : Int) (s : Shift)
    (hdb : db id = some s) (h0 : s.workerId = some 0) :
    (claim db id w).1 = Except.ok { s with workerId := some w, cancelledAt := none } ∧
    (claim db id w).2 id = some { s with workerId := some w, cancelledAt := none } ∧
    cancel db id now = (Except.error ServiceError.badRequest, db) ∧
    (∀ (db2 : Db) (s2 : Shift), db2 id = some s2 → s2.workerId = none →
      (claim db2 id 0).1 =
        Except.ok { s2 with workerId := some (0 : Int), cancelledAt := none } ∧
      (claim db2 id 0).2 id =
        some { s2 with workerId := some (0 : Int), cancelledAt := none }) := by
  have ht : truthy s.workerId = false := by rw [h0]; simp [truthy]
  refine ⟨?_, ?_, ?_, ?_⟩
  · simp [claim, hdb, ht]
  · simp [claim, hdb, ht, setShift]
  · simp [cancel, hdb, ht]
  · intro db2 s2 hdb2 hs2
    have ht2 : truthy s2.workerId = false := by rw [hs2]; simp [truthy]
    exact ⟨by simp [claim, hdb2, ht2], by simp [claim, hdb2, ht2, setShift]⟩

theorem truthiness_zero_worker_witness :
    (claim (fun i => if i = 1 then some (Shift.mk 1 (some 0) none) else none) 1 9).1 =
      Except.ok (Shift.mk 1 (some 9) none) ∧
    (cancel (fun i => if i = 1 then some (Shift.mk 1 (some 0) none) else none) 1 5).1 =
      Except.error ServiceError.badRequest := by
  have h := truthiness_zero_worker
    (fun i => if i = 1 then some (Shift.mk 1 (some 0) none) else none)
    1 9 5 (Shift.mk 1 (some 0) none) (by simp) rfl
  exact ⟨h.1, by rw [h.2.2.1]⟩

/-! ## Aggregation -/

theorem shiftCounts_foldl (shifts : List ShiftRec) :
    ∀ (m : Int → Nat) (k : Int),
      (shifts.foldl (fun m s => if s.workplaceId ≠ 0 then bumpCount m s.workplaceId else m)
        m) k = m k + refShiftCount shifts k := by
  induction shifts with
  | nil => intro m k; simp [refShiftCount]
  | cons s tl ih =>
    intro m k
    simp only [List.foldl_cons]
    rw [ih]
    unfold refShiftCount
    rw [List.countP_cons]
    by_cases h0 : s.workplaceId = 0
    · simp only [h0]
      simp [refShiftCount]
    · by_cases hk : k = s.workplaceId
      · subst hk
        simp [h0, bumpCount, refShiftCount]
        omega
      · have hne : s.workplaceId ≠ k := fun h => hk h.symm
        simp [h0, bumpCount, hk, hne]

theorem shiftCounts_eq_refShiftCount (shifts : List ShiftRec) (k : Int) :
    shiftCounts shifts k = refShiftCount shifts k := by
  have h := shiftCounts_foldl shifts (fun _ => 0) k
  simpa [shiftCounts] using h

theorem mem_top_of_small {W : List Workplace} {S : List ShiftRec}
    {e : WorkplaceWithShifts} (hlen : (projectWorkplaces W S).length ≤ 3)
    (he : e ∈ projectWorkplaces W S) : e ∈ getTopWorkplaces W S := by
  unfold getTopWorkplaces
  rw [List.take_of_length_le (by rw [(List.mergeSort_perm _ _).length_eq]; exact hlen)]
  exact (List.mergeSort_perm _ _).mem_iff.mpr he

theorem mem_project_of_mem_top {W : List Workplace} {S : List ShiftRec}
    {e : WorkplaceWithShifts} (he : e ∈ getTopWorkplaces W S) :
    e ∈ projectWorkplaces W S := by
  have h1 : e ∈ (projectWorkplaces W S).mergeSort shiftsLe :=
    List.mem_of_mem_take (by simpa [getTopWorkplaces] using he)
  exact (List.mergeSort_perm (projectWorkplaces W S) shiftsLe).mem_iff.mp h1

/-- Claim C7: every entry of the ranked output is an active workplace
carrying a shift count equal to the number of shift records referencing that
workplace's identifier (only non-null/non-zero references count), and every
active workplace is projected into the aggregation's candidate list with that
count — in particular an active workplace referenced by no shift appears with
count 0. -/
theorem topWorkplaces_counts (W : List Workplace) (S : List ShiftRec) :
    (∀ e ∈ getTopWorkplaces W S, ∃ wp, wp ∈ W ∧ wp.status = 0 ∧
        e.name = wp.name ∧ e.shifts = refShiftCount S wp.id) ∧
    (∀ wp ∈ W, wp.status = 0 →
        WorkplaceWithShifts.mk wp.name (refShiftCount S wp.id) ∈ projectWorkplaces W S) ∧
    (∀ wp ∈ W, wp.status = 0 → (∀ s ∈ S, s.workplaceId ≠ wp.id) →
        WorkplaceWithShifts.mk wp.name 0 ∈ projectWorkplaces W S) := by
  have hproj : ∀ wp ∈ W, wp.status = 0 →
      WorkplaceWithShifts.mk wp.name (refShiftCount S wp.id) ∈ projectWorkplaces W S := by
    intro wp hwp hst
    unfold projectWorkplaces
    rw [List.mem_map]
    exact ⟨wp, List.mem_filter.mpr ⟨hwp, by simp [hst]⟩,
      by simp [shiftCounts_eq_refShiftCount]⟩
  refine ⟨?_, hproj, ?_⟩
  · intro e he
    have hp := mem_project_of_mem_top he
    unfold projectWorkplaces at hp
    rw [List.mem_map] at hp
    obtain ⟨wp, hwp, heq⟩ := hp
    rw [List.mem_filter] at hwp
    subst heq
    exact ⟨wp, hwp.1, by simpa using hwp.2, rfl,
      by simpa using shiftCounts_eq_refShiftCount S wp.id⟩
  · intro wp hwp hst hno
    have hz : refShiftCount S wp.id = 0 := by
      rw [refShiftCount, List.countP_eq_zero]
      intro s hs
      simp [hno s hs]
    have h := hproj wp hwp hst
    rw [hz] at h
    exact h

theorem topWorkplaces_counts_witness :
    ∃ wp, wp ∈ [Workplace.mk 1 "A" 0, Workplace.mk 2 "B" 1, Workplace.mk 3 "C" 0] ∧
      wp.status = 0 ∧ (WorkplaceWithShifts.mk "A" 2).name = wp.name ∧
      (WorkplaceWithShifts.mk "A" 2).shifts =
        refShiftCount [ShiftRec.mk 1 1, ShiftRec.mk 2 1, ShiftRec.mk 3 3] wp.id :=
  (topWorkplaces_counts
    [Workplace.mk 1 "A" 0, Workplace.mk 2 "B" 1, Workplace.mk 3 "C" 0]
    [ShiftRec.mk 1 1, ShiftRec.mk 2 1, ShiftRec.mk 3 3]).1
    (WorkplaceWithShifts.mk "A" 2) (mem_top_of_small (by decide) (by decide))

/-- Claim C8: the ranked output excludes every workplace whose status is not
the active sentinel 0 — each reported entry arises from a workplace whose
status is exactly 0. -/
theorem topWorkplaces_active_only (W : List Workplace) (S : List ShiftRec) :
    ∀ e ∈ getTopWorkplaces W S, ∃ wp, wp ∈ W ∧ wp.status = 0 ∧ e.name = wp.name := by
  intro e he
  have hp := mem_project_of_mem_top he
  unfold projectWorkplaces at hp
  rw [List.mem_map] at hp
  obtain ⟨wp, hwp, heq⟩ := hp
  rw [List.mem_filter] at hwp
  subst heq
  exact ⟨wp, hwp.1, by simpa using hwp.2, rfl⟩

theorem topWorkplaces_active_only_witness :
    ∃ wp, wp ∈ [Workplace.mk 1 "A" 0, Workplace.mk 2 "B" 1, Workplace.mk 3 "C" 0] ∧
      wp.status = 0 ∧ (WorkplaceWithShifts.mk "A" 2).name = wp.name :=
  topWorkplaces_active_only
    [Workplace.mk 1 "A" 0, Workplace.mk 2 "B" 1, Workplace.mk 3 "C" 0]
    [ShiftRec.mk 1 1, ShiftRec.mk 2 1, ShiftRec.mk 3 3]
    (WorkplaceWithShifts.mk "A" 2) (mem_top_of_small (by decide) (by decide))

theorem shiftsLe_trans (a b c : WorkplaceWithShifts) :
    shiftsLe a b = true → shiftsLe b c = true → shiftsLe a c = true := by
  simp only [shiftsLe, decide_eq_true_eq]
  omega

theorem shiftsLe_total (a b : WorkplaceWithShifts) :
    (shiftsLe a b || shiftsLe b a) = true := by
  simp only [shiftsLe, Bool.or_eq_true, decide_eq_true_eq]
  omega

/-- Claim C9: the ranked output is the 3-entry prefix of a stable descending
sort of the active-filtered projection: the output equals that prefix, is
sorted descending by shift count, has at most 3 entries, and any two entries
with equal shift counts keep, in the sorted sequence the output truncates,
the relative order they had in the projection. -/
theorem topWorkplaces_sorted_stable (W : List Workplace) (S : List ShiftRec) :
    getTopWorkplaces W S = ((projectWorkplaces W S).mergeSort shiftsLe).take 3 ∧
    List.Pairwise (fun a b => b.shifts ≤ a.shifts) (getTopWorkplaces W S) ∧
    (getTopWorkplaces W S).length ≤ 3 ∧
    (∀ a b : WorkplaceWithShifts, a.shifts = b.shifts →
      List.Sublist [a, b] (projectWorkplaces W S) →
      List.Sublist [a, b] ((projectWorkplaces W S).mergeSort shiftsLe)) := by
  refine ⟨rfl, ?_, ?_, ?_⟩
  · have hs := @List.sorted_mergeSort WorkplaceWithShifts shiftsLe shiftsLe_trans
      shiftsLe_total (projectWorkplaces W S)
    have ht := List.Pairwise.sublist
      (List.take_sublist 3 ((projectWorkplaces W S).mergeSort shiftsLe)) hs
    have := ht.imp (fun {a b} h => by simpa [shiftsLe] using h)
    simpa [getTopWorkplaces] using this
  · have : (((projectWorkplaces W S).mergeSort shiftsLe).take 3).length ≤ 3 := by
      rw [List.length_take]
      exact min_le_left _ _
    exact this
  · intro a b hab hsub
    apply List.sublist_mergeSort shiftsLe_trans shiftsLe_total ?_ hsub
    simp [List.pairwise_cons, shiftsLe, hab]

theorem topWorkplaces_sorted_stable_witness :
    List.Sublist [WorkplaceWithShifts.mk "A" 0, WorkplaceWithShifts.mk "B" 0]
      ((projectWorkplaces [Workplace.mk 1 "A" 0, Workplace.mk 2 "B" 0] []).mergeSort
        shiftsLe) :=
  (topWorkplaces_sorted_stable [Workplace.mk 1 "A" 0, Workplace.mk 2 "B" 0] []).2.2.2
    (WorkplaceWithShifts.mk "A" 0) (WorkplaceWithShifts.mk "B" 0) rfl (by decide)
